import Mathlib

/-!
Verification development for the SysMate filesystem usage & cleanup analysis
engine.  The Rust source is shallowly embedded: directory trees become an
inductive forest type, the pseudo-filesystem and mount-table inputs become
explicit parameters, fallible reads become `Option`, and `f32`/`f64` values
are modelled exactly (rationals for finite values, with explicit NaN/infinity
constructors where the source can observe them).  Byte counts and entry counts
are modelled as `Nat` (the source uses `u64`/`usize`; aggregation sums are
treated as exact, and the `u64` arithmetic of the statvfs capacity computation
is modelled with explicit reduction modulo `2 ^ 64` where wrapping matters).
-/

/-- A directory's contents as seen by `fs::read_dir`: a sequence of entries,
each a regular file with a size, a subdirectory with its own contents, or an
entry whose metadata cannot be obtained (skipped by every traversal).
A directory whose `read_dir` fails is modelled as having no entries. -/
inductive FsForest where
  | nil : FsForest
  | consFile (size : Nat) (rest : FsForest) : FsForest
  | consSkipped (rest : FsForest) : FsForest
  | consDir (children : FsForest) (rest : FsForest) : FsForest
deriving DecidableEq

/-- The entry loop of `calculate_folder_size` (`disk_analyzer/src/lib.rs`,
lines 154-169): files add their size and bump the file count, directories bump
the directory count and fold in the totals of the recursive call at
`current_depth + 1`, unreadable entries are skipped.  The recursive call's
entry guard (`current_depth > max_depth` returns zeros, line 150) is inlined
at the call site so that the recursion is structural on the forest. -/
def scanEntriesAux (entries : FsForest) (current_depth max_depth : Nat) :
    Nat × Nat × Nat :=
  match entries with
  | .nil => (0, 0, 0)
  | .consFile sz rest =>
      let acc := scanEntriesAux rest current_depth max_depth
      (acc.1 + sz, acc.2.1 + 1, acc.2.2)
  | .consSkipped rest => scanEntriesAux rest current_depth max_depth
  | .consDir children rest =>
      let sub :=
        if current_depth + 1 > max_depth then ((0, 0, 0) : Nat × Nat × Nat)
        else scanEntriesAux children (current_depth + 1) max_depth
      let acc := scanEntriesAux rest current_depth max_depth
      (acc.1 + sub.1, acc.2.1 + sub.2.1, acc.2.2 + 1 + sub.2.2)

/-- `calculate_folder_size` from `disk_analyzer/src/lib.rs` (lines 145-172):
guard `current_depth > max_depth` returns zeros (line 150), otherwise the
directory's entry list is scanned.  The argument is the entry list. -/
def calculate_folder_size (entries : FsForest) (current_depth max_depth : Nat) :
    Nat × Nat × Nat :=
  if current_depth > max_depth then (0, 0, 0)
  else scanEntriesAux entries current_depth max_depth

/-- The source's recursion shape, recovered: within a visited directory, the
contribution of a subdirectory entry is exactly the recursive call
`calculate_folder_size(child, current_depth + 1, max_depth)`. -/
theorem calculate_folder_size_consDir (children rest : FsForest)
    (current_depth max_depth : Nat) (h : current_depth ≤ max_depth) :
    calculate_folder_size (.consDir children rest) current_depth max_depth =
      (let sub := calculate_folder_size children (current_depth + 1) max_depth
       let acc := calculate_folder_size rest current_depth max_depth
       (acc.1 + sub.1, acc.2.1 + sub.2.1, acc.2.2 + 1 + sub.2.2)) := by
  simp only [calculate_folder_size, scanEntriesAux, if_neg (Nat.not_lt.mpr h)]

/-- Total size of the files appearing directly in the entry list (depth 0),
files inside subdirectories excluded. -/
def immediateFilesSize : FsForest → Nat
  | .nil => 0
  | .consFile sz rest => immediateFilesSize rest + sz
  | .consSkipped rest => immediateFilesSize rest
  | .consDir _ rest => immediateFilesSize rest

/-- Number of files appearing directly in the entry list. -/
def immediateFileCount : FsForest → Nat
  | .nil => 0
  | .consFile _ rest => immediateFileCount rest + 1
  | .consSkipped rest => immediateFileCount rest
  | .consDir _ rest => immediateFileCount rest

/-- Number of subdirectories appearing directly in the entry list. -/
def immediateDirCount : FsForest → Nat
  | .nil => 0
  | .consFile _ rest => immediateDirCount rest
  | .consSkipped rest => immediateDirCount rest
  | .consDir _ rest => immediateDirCount rest + 1

/-- Componentwise order on (size, file count, dir count) triples. -/
def le3 (a b : Nat × Nat × Nat) : Prop :=
  a.1 ≤ b.1 ∧ a.2.1 ≤ b.2.1 ∧ a.2.2 ≤ b.2.2

theorem scanEntriesAux_zero_zero (e : FsForest) :
    scanEntriesAux e 0 0 =
      (immediateFilesSize e, immediateFileCount e, immediateDirCount e) := by
  induction e with
  | nil => rfl
  | consFile sz rest ih =>
      simp [scanEntriesAux, immediateFilesSize, immediateFileCount, immediateDirCount, ih]
  | consSkipped rest ih =>
      simp [scanEntriesAux, immediateFilesSize, immediateFileCount, immediateDirCount, ih]
  | consDir children rest ihc ihr =>
      simp [scanEntriesAux, immediateFilesSize, immediateFileCount, immediateDirCount, ihr]

theorem scanEntriesAux_mono (e : FsForest) :
    ∀ cur m₁ m₂, m₁ ≤ m₂ →
      le3 (scanEntriesAux e cur m₁) (scanEntriesAux e cur m₂) := by
  induction e with
  | nil => intro cur m₁ m₂ _; exact ⟨le_rfl, le_rfl, le_rfl⟩
  | consFile sz rest ih =>
      intro cur m₁ m₂ h
      have hr := ih cur m₁ m₂ h
      simp only [scanEntriesAux, le3] at *
      omega
  | consSkipped rest ih =>
      intro cur m₁ m₂ h
      exact ih cur m₁ m₂ h
  | consDir children rest ihc ihr =>
      intro cur m₁ m₂ h
      have hr := ihr cur m₁ m₂ h
      by_cases h2 : cur + 1 > m₂
      · have h1 : cur + 1 > m₁ := by omega
        simp only [scanEntriesAux, le3, if_pos h1, if_pos h2] at *
        omega
      · by_cases h1 : cur + 1 > m₁
        · have hc := (scanEntriesAux children (cur + 1) m₂)
          simp only [scanEntriesAux, le3, if_pos h1, if_neg h2] at *
          omega
        · have hc := ihc (cur + 1) m₁ m₂ h
          simp only [scanEntriesAux, le3, if_neg h1, if_neg h2] at *
          omega

theorem calculate_folder_size_mono (e : FsForest) (cur m₁ m₂ : Nat) (h : m₁ ≤ m₂) :
    le3 (calculate_folder_size e cur m₁) (calculate_folder_size e cur m₂) := by
  by_cases h2 : cur > m₂
  · have h1 : cur > m₁ := by omega
    simp only [calculate_folder_size, if_pos h1, if_pos h2]
    exact ⟨le_rfl, le_rfl, le_rfl⟩
  · by_cases h1 : cur > m₁
    · simp only [calculate_folder_size, if_pos h1, if_neg h2, le3]
      exact ⟨Nat.zero_le _, Nat.zero_le _, Nat.zero_le _⟩
    · simp only [calculate_folder_size, if_neg h1, if_neg h2]
      exact scanEntriesAux_mono e cur m₁ m₂ h

/-- C1: directory tree aggregation respects the depth bound.  Within a visited
directory (`current_depth ≤ max_depth`) a regular-file entry adds its size and
increments the file count, a directory entry increments the directory count
and folds in the recursive totals taken at `current_depth + 1`; any call with
`current_depth > max_depth` contributes nothing, so the fold-in of a child is
non-trivial only if the current depth is within the bound; and with
`max_depth = 0` the result is exactly the immediate children's file sizes and
file/dir counts — files at deeper levels are excluded. -/
theorem c1_depth_bounded_aggregation :
    (∀ e current_depth max_depth, max_depth < current_depth →
        calculate_folder_size e current_depth max_depth = (0, 0, 0)) ∧
    (∀ sz rest current_depth max_depth, current_depth ≤ max_depth →
        calculate_folder_size (.consFile sz rest) current_depth max_depth =
          ((calculate_folder_size rest current_depth max_depth).1 + sz,
           (calculate_folder_size rest current_depth max_depth).2.1 + 1,
           (calculate_folder_size rest current_depth max_depth).2.2)) ∧
    (∀ children rest current_depth max_depth, current_depth ≤ max_depth →
        calculate_folder_size (.consDir children rest) current_depth max_depth =
          ((calculate_folder_size rest current_depth max_depth).1 +
             (calculate_folder_size children (current_depth + 1) max_depth).1,
           (calculate_folder_size rest current_depth max_depth).2.1 +
             (calculate_folder_size children (current_depth + 1) max_depth).2.1,
           (calculate_folder_size rest current_depth max_depth).2.2 + 1 +
             (calculate_folder_size children (current_depth + 1) max_depth).2.2)) ∧
    (∀ e, calculate_folder_size e 0 0 =
        (immediateFilesSize e, immediateFileCount e, immediateDirCount e)) := by
  refine ⟨?_, ?_, ?_, ?_⟩
  · intro e current_depth max_depth h
    simp only [calculate_folder_size, gt_iff_lt, if_pos h]
  · intro sz rest current_depth max_depth h
    simp only [calculate_folder_size, scanEntriesAux, if_neg (Nat.not_lt.mpr h)]
  · intro children rest current_depth max_depth h
    exact calculate_folder_size_consDir children rest current_depth max_depth h
  · intro e
    simp [calculate_folder_size, scanEntriesAux_zero_zero]

/-- Witness for C1 at a concrete tree: a directory containing one file of size
5, aggregated from depth 0 with `max_depth = 0`, contributes only the
directory count — the child's file is beyond the depth bound. -/
theorem c1_depth_bounded_aggregation_witness :
    (0 : Nat) ≤ 0 ∧
      calculate_folder_size (.consDir (.consFile 5 .nil) .nil) 0 0 = (0, 0, 1) := by
  constructor
  · exact le_rfl
  · rw [c1_depth_bounded_aggregation.2.2.1 (.consFile 5 .nil) .nil 0 0 (by decide)]
    decide

/-- C5: directory aggregation is monotonic in the depth bound — raising
`max_depth` from `d` to `d + 1` can only increase the aggregate size, the file
count and the directory count. -/
theorem c5_aggregation_monotone_in_depth (e : FsForest) (d : Nat) :
    le3 (calculate_folder_size e 0 d) (calculate_folder_size e 0 (d + 1)) :=
  calculate_folder_size_mono e 0 d (d + 1) (Nat.le_succ d)

/-- `calculate_dir_size` from `system_cleaner/src/lib.rs` (lines 56-72):
recursive size of a directory, files add their length, subdirectories recurse
without a depth bound, unreadable entries are skipped. -/
def calculate_dir_size : FsForest → Nat
  | .nil => 0
  | .consFile sz rest => sz + calculate_dir_size rest
  | .consSkipped rest => calculate_dir_size rest
  | .consDir children rest => calculate_dir_size children + calculate_dir_size rest

/-- `count_files_in_dir` from `system_cleaner/src/lib.rs` (lines 75-91):
recursive count of regular files under a directory. -/
def count_files_in_dir : FsForest → Nat
  | .nil => 0
  | .consFile _ rest => 1 + count_files_in_dir rest
  | .consSkipped rest => count_files_in_dir rest
  | .consDir children rest => count_files_in_dir children + count_files_in_dir rest

theorem calculate_dir_size_eq_zero_of_count_eq_zero :
    ∀ d : FsForest, count_files_in_dir d = 0 → calculate_dir_size d = 0 := by
  intro d
  induction d with
  | nil => intro _; rfl
  | consFile sz rest ih => intro h; simp [count_files_in_dir] at h
  | consSkipped rest ih => intro h; exact ih h
  | consDir children rest ihc ihr =>
      intro h
      simp only [count_files_in_dir, Nat.add_eq_zero] at h
      simp [calculate_dir_size, ihc h.1, ihr h.2]

/-- The closed cleanup-category enumeration (`system_cleaner/src/lib.rs`,
lines 10-19). -/
inductive CleanupCategory where
  | PackageCache
  | Thumbnails
  | Trash
  | Logs
  | OldKernels
  | BrowserCache
  | TempFiles
deriving DecidableEq

/-- `CleanupItem` (`system_cleaner/src/lib.rs`, lines 47-53). -/
structure CleanupItem where
  category : CleanupCategory
  size : Nat
  count : Nat
  paths : List String
deriving DecidableEq

/-- The filesystem state consulted by `scan_cleanable_items`: for each
candidate path, `none` means the path does not exist and `some d` gives the
directory contents used for sizing. -/
structure CleanerFs where
  apt_cache : Option FsForest
  thumbnails : Option FsForest
  trash_files : Option FsForest
  journal : Option FsForest
  firefox_cache : Option FsForest
  chrome_cache : Option FsForest
  tmp : Option FsForest
deriving DecidableEq

def thumbnails_path (home : String) : String := home ++ "/.cache/thumbnails"

def trash_files_path (home : String) : String := home ++ "/.local/share/Trash/files"

def trash_info_path (home : String) : String := home ++ "/.local/share/Trash/info"

def firefox_cache_path (home : String) : String := home ++ "/.cache/mozilla/firefox"

def chrome_cache_path (home : String) : String := home ++ "/.cache/google-chrome"

/-- One existence-guarded block of `scan_cleanable_items`: if the candidate
path exists, push one item carrying the recursive size and file count of that
path (used verbatim for the package-cache, thumbnail, trash and journal
blocks, lines 97-148 of `system_cleaner/src/lib.rs`). -/
def scanSimple (c : CleanupCategory) (path : String) (dir : Option FsForest) :
    List CleanupItem :=
  match dir with
  | some d =>
      [{ category := c, size := calculate_dir_size d,
         count := count_files_in_dir d, paths := [path] }]
  | none => []

def optSize : Option FsForest → Nat
  | some d => calculate_dir_size d
  | none => 0

def optCount : Option FsForest → Nat
  | some d => count_files_in_dir d
  | none => 0

/-- The browser-cache block (lines 150-175): Firefox and Chrome cache sizes
and counts are summed over whichever of the two directories exist, and the
merged item is pushed only when the summed size is positive. -/
def scanBrowser (home : String) (fs : CleanerFs) : List CleanupItem :=
  let browser_size := optSize fs.firefox_cache + optSize fs.chrome_cache
  let browser_count := optCount fs.firefox_cache + optCount fs.chrome_cache
  let browser_paths :=
    (if fs.firefox_cache.isSome then [firefox_cache_path home] else []) ++
      (if fs.chrome_cache.isSome then [chrome_cache_path home] else [])
  if 0 < browser_size then
    [{ category := .BrowserCache, size := browser_size, count := browser_count,
       paths := browser_paths }]
  else []

/-- The temp-files block (lines 177-190): pushed only when `/tmp` exists and
its recursive file count is positive. -/
def scanTemp (fs : CleanerFs) : List CleanupItem :=
  match fs.tmp with
  | some d =>
      if 0 < count_files_in_dir d then
        [{ category := .TempFiles, size := calculate_dir_size d,
           count := count_files_in_dir d, paths := ["/tmp"] }]
      else []
  | none => []

/-- `scan_cleanable_items` (`system_cleaner/src/lib.rs`, lines 94-193): the
category blocks are evaluated in the source's push order. -/
def scan_cleanable_items (home : String) (fs : CleanerFs) : List CleanupItem :=
  scanSimple .PackageCache "/var/cache/apt/archives" fs.apt_cache ++
    scanSimple .Thumbnails (thumbnails_path home) fs.thumbnails ++
    scanSimple .Trash (trash_files_path home) fs.trash_files ++
    scanSimple .Logs "/var/log/journal" fs.journal ++
    scanBrowser home fs ++
    scanTemp fs

/-- Whether at least one candidate path of a category exists, category by
category as hard-wired in `scan_cleanable_items` (OldKernels has none). -/
def candidateExists (fs : CleanerFs) : CleanupCategory → Bool
  | .PackageCache => fs.apt_cache.isSome
  | .Thumbnails => fs.thumbnails.isSome
  | .Trash => fs.trash_files.isSome
  | .Logs => fs.journal.isSome
  | .OldKernels => false
  | .BrowserCache => fs.firefox_cache.isSome || fs.chrome_cache.isSome
  | .TempFiles => fs.tmp.isSome

/-- Aggregate size of a category over its existing candidate paths. -/
def categorySize (fs : CleanerFs) : CleanupCategory → Nat
  | .PackageCache => optSize fs.apt_cache
  | .Thumbnails => optSize fs.thumbnails
  | .Trash => optSize fs.trash_files
  | .Logs => optSize fs.journal
  | .OldKernels => 0
  | .BrowserCache => optSize fs.firefox_cache + optSize fs.chrome_cache
  | .TempFiles => optSize fs.tmp

/-- Aggregate file count of a category over its existing candidate paths. -/
def categoryCount (fs : CleanerFs) : CleanupCategory → Nat
  | .PackageCache => optCount fs.apt_cache
  | .Thumbnails => optCount fs.thumbnails
  | .Trash => optCount fs.trash_files
  | .Logs => optCount fs.journal
  | .OldKernels => 0
  | .BrowserCache => optCount fs.firefox_cache + optCount fs.chrome_cache
  | .TempFiles => optCount fs.tmp

/-- The candidate paths a scanned item of the category reports. -/
def categoryPaths (home : String) (fs : CleanerFs) : CleanupCategory → List String
  | .PackageCache => ["/var/cache/apt/archives"]
  | .Thumbnails => [thumbnails_path home]
  | .Trash => [trash_files_path home]
  | .Logs => ["/var/log/journal"]
  | .OldKernels => []
  | .BrowserCache =>
      (if fs.firefox_cache.isSome then [firefox_cache_path home] else []) ++
        (if fs.chrome_cache.isSome then [chrome_cache_path home] else [])
  | .TempFiles => ["/tmp"]

theorem mem_scanSimple {c : CleanupCategory} {path : String} {dir : Option FsForest}
    {item : CleanupItem} (h : item ∈ scanSimple c path dir) :
    ∃ d, dir = some d ∧
      item = { category := c, size := calculate_dir_size d,
               count := count_files_in_dir d, paths := [path] } := by
  cases dir with
  | none => simp [scanSimple] at h
  | some d =>
      simp only [scanSimple, List.mem_singleton] at h
      exact ⟨d, rfl, h⟩

theorem mem_scanBrowser {home : String} {fs : CleanerFs} {item : CleanupItem}
    (h : item ∈ scanBrowser home fs) :
    0 < optSize fs.firefox_cache + optSize fs.chrome_cache ∧
      item = { category := .BrowserCache,
               size := optSize fs.firefox_cache + optSize fs.chrome_cache,
               count := optCount fs.firefox_cache + optCount fs.chrome_cache,
               paths :=
                 (if fs.firefox_cache.isSome then [firefox_cache_path home] else []) ++
                   (if fs.chrome_cache.isSome then [chrome_cache_path home] else []) } := by
  by_cases hpos : 0 < optSize fs.firefox_cache + optSize fs.chrome_cache
  · refine ⟨hpos, ?_⟩
    simp only [scanBrowser, if_pos hpos, List.mem_singleton] at h
    exact h
  · simp only [scanBrowser, if_neg hpos] at h
    simp at h

theorem mem_scanTemp {fs : CleanerFs} {item : CleanupItem} (h : item ∈ scanTemp fs) :
    ∃ d, fs.tmp = some d ∧ 0 < count_files_in_dir d ∧
      item = { category := .TempFiles, size := calculate_dir_size d,
               count := count_files_in_dir d, paths := ["/tmp"] } := by
  cases htmp : fs.tmp with
  | none => rw [scanTemp, htmp] at h; simp at h
  | some d =>
      rw [scanTemp, htmp] at h
      by_cases hpos : 0 < count_files_in_dir d
      · simp only [if_pos hpos, List.mem_singleton] at h
        exact ⟨d, rfl, hpos, h⟩
      · simp [if_neg hpos] at h

theorem optSize_pos_isSome {o : Option FsForest} (h : 0 < optSize o) :
    o.isSome = true := by
  cases o with
  | none => simp [optSize] at h
  | some d => rfl

/-- Membership in the whole scan, split into the six source blocks. -/
theorem mem_scan_cases {home : String} {fs : CleanerFs} {item : CleanupItem}
    (h : item ∈ scan_cleanable_items home fs) :
    item ∈ scanSimple .PackageCache "/var/cache/apt/archives" fs.apt_cache ∨
      item ∈ scanSimple .Thumbnails (thumbnails_path home) fs.thumbnails ∨
      item ∈ scanSimple .Trash (trash_files_path home) fs.trash_files ∨
      item ∈ scanSimple .Logs "/var/log/journal" fs.journal ∨
      item ∈ scanBrowser home fs ∨ item ∈ scanTemp fs := by
  simpa [scan_cleanable_items, List.mem_append, or_assoc] using h

/-- C2: a cleanup category appears in the scan result only if at least one of
its candidate paths exists (and is omitted when its only candidate path does
not exist); the temporary-files category is additionally excluded when its
recursive file count is zero; and whenever a candidate path of a category
exists and the aggregate size over its existing candidate paths is positive,
the category is included with exactly that aggregate size and file count
(browser cache merging the Firefox and Chrome cache directories into one
size/count pair). -/
theorem c2_cleanup_scan_category_presence (home : String) (fs : CleanerFs) :
    (∀ item ∈ scan_cleanable_items home fs,
        candidateExists fs item.category = true) ∧
    (∀ c, candidateExists fs c = false →
        ∀ item ∈ scan_cleanable_items home fs, item.category ≠ c) ∧
    (∀ item ∈ scan_cleanable_items home fs,
        item.category = CleanupCategory.TempFiles → 0 < item.count) ∧
    (∀ c, candidateExists fs c = true → 0 < categorySize fs c →
        ({ category := c, size := categorySize fs c, count := categoryCount fs c,
           paths := categoryPaths home fs c } : CleanupItem) ∈
          scan_cleanable_items home fs) := by
  have hcat : ∀ item ∈ scan_cleanable_items home fs,
      candidateExists fs item.category = true := by
    intro item h
    rcases mem_scan_cases h with h' | h' | h' | h' | h' | h'
    · obtain ⟨d, hd, hi⟩ := mem_scanSimple h'
      subst hi; simp [candidateExists, hd]
    · obtain ⟨d, hd, hi⟩ := mem_scanSimple h'
      subst hi; simp [candidateExists, hd]
    · obtain ⟨d, hd, hi⟩ := mem_scanSimple h'
      subst hi; simp [candidateExists, hd]
    · obtain ⟨d, hd, hi⟩ := mem_scanSimple h'
      subst hi; simp [candidateExists, hd]
    · obtain ⟨hpos, hi⟩ := mem_scanBrowser h'
      subst hi
      simp only [candidateExists, Bool.or_eq_true]
      by_cases hf : 0 < optSize fs.firefox_cache
      · exact Or.inl (optSize_pos_isSome hf)
      · exact Or.inr (optSize_pos_isSome (by omega))
    · obtain ⟨d, hd, hpos, hi⟩ := mem_scanTemp h'
      subst hi; simp [candidateExists, hd]
  refine ⟨hcat, ?_, ?_, ?_⟩
  · intro c hfalse item hmem heq
    have := hcat item hmem
    rw [heq, hfalse] at this
    exact Bool.false_ne_true this
  · intro item hmem heq
    rcases mem_scan_cases hmem with h' | h' | h' | h' | h' | h'
    · obtain ⟨d, hd, hi⟩ := mem_scanSimple h'; subst hi; simp at heq
    · obtain ⟨d, hd, hi⟩ := mem_scanSimple h'; subst hi; simp at heq
    · obtain ⟨d, hd, hi⟩ := mem_scanSimple h'; subst hi; simp at heq
    · obtain ⟨d, hd, hi⟩ := mem_scanSimple h'; subst hi; simp at heq
    · obtain ⟨hpos, hi⟩ := mem_scanBrowser h'; subst hi; simp at heq
    · obtain ⟨d, hd, hpos, hi⟩ := mem_scanTemp h'; subst hi; exact hpos
  · intro c hex hsize
    cases c with
    | PackageCache =>
        cases hapt : fs.apt_cache with
        | none => rw [candidateExists, hapt] at hex; simp at hex
        | some d =>
            apply List.mem_append_left
            apply List.mem_append_left
            apply List.mem_append_left
            apply List.mem_append_left
            apply List.mem_append_left
            simp [scanSimple, hapt, categorySize, categoryCount, categoryPaths, optSize, optCount]
    | Thumbnails =>
        cases hv : fs.thumbnails with
        | none => rw [candidateExists, hv] at hex; simp at hex
        | some d =>
            apply List.mem_append_left
            apply List.mem_append_left
            apply List.mem_append_left
            apply List.mem_append_left
            apply List.mem_append_right
            simp [scanSimple, hv, categorySize, categoryCount, categoryPaths, optSize, optCount]
    | Trash =>
        cases hv : fs.trash_files with
        | none => rw [candidateExists, hv] at hex; simp at hex
        | some d =>
            apply List.mem_append_left
            apply List.mem_append_left
            apply List.mem_append_left
            apply List.mem_append_right
            simp [scanSimple, hv, categorySize, categoryCount, categoryPaths, optSize, optCount]
    | Logs =>
        cases hv : fs.journal with
        | none => rw [candidateExists, hv] at hex; simp at hex
        | some d =>
            apply List.mem_append_left
            apply List.mem_append_left
            apply List.mem_append_right
            simp [scanSimple, hv, categorySize, categoryCount, categoryPaths, optSize, optCount]
    | OldKernels => rw [candidateExists] at hex; simp at hex
    | BrowserCache =>
        apply List.mem_append_left
        apply List.mem_append_right
        rw [categorySize] at hsize
        simp only [scanBrowser, if_pos hsize, categorySize, categoryCount, categoryPaths]
        exact List.mem_singleton.mpr rfl
    | TempFiles =>
        cases hv : fs.tmp with
        | none => rw [candidateExists, hv] at hex; simp at hex
        | some d =>
            apply List.mem_append_right
            rw [categorySize, hv] at hsize
            have hcount : 0 < count_files_in_dir d := by
              by_contra hc
              have h0 : count_files_in_dir d = 0 := by omega
              have := calculate_dir_size_eq_zero_of_count_eq_zero d h0
              rw [optSize] at hsize
              omega
            simp [scanTemp, hv, if_pos hcount, categorySize, categoryCount, categoryPaths,
              optSize, optCount]

/-- Witness for C2: a state where only the thumbnail cache exists, holding
three files of 100 bytes each — the thumbnail category is reported with
size 300 and count 3. -/
theorem c2_cleanup_scan_category_presence_witness :
    ({ category := .Thumbnails, size := 300, count := 3,
       paths := ["/home/u/.cache/thumbnails"] } : CleanupItem) ∈
      scan_cleanable_items "/home/u"
        { apt_cache := none, thumbnails :=
            some (.consFile 100 (.consFile 100 (.consFile 100 .nil))),
          trash_files := none, journal := none, firefox_cache := none,
          chrome_cache := none, tmp := none } := by
  have h := (c2_cleanup_scan_category_presence "/home/u"
      { apt_cache := none, thumbnails :=
          some (.consFile 100 (.consFile 100 (.consFile 100 .nil))),
        trash_files := none, journal := none, firefox_cache := none,
        chrome_cache := none, tmp := none }).2.2.2
      CleanupCategory.Thumbnails (by decide) (by decide)
  simpa using h

/-- The reclaim action a category maps to: either an external (privileged)
command invocation, or a direct clear-and-recreate of a list of directories. -/
inductive CleanAction where
  | runCommand (program : String) (args : List String)
  | clearAndRecreate (paths : List String)
deriving DecidableEq

/-- `clean_category` (`system_cleaner/src/lib.rs`, lines 265-280), with each
delegated helper (lines 196-262) inlined as the action it performs. -/
def clean_category (home : String) : CleanupCategory → CleanAction
  | .PackageCache => .runCommand "pkexec" ["apt-get", "clean"]
  | .Thumbnails => .clearAndRecreate [thumbnails_path home]
  | .Trash => .clearAndRecreate [trash_files_path home, trash_info_path home]
  | .Logs => .runCommand "pkexec" ["journalctl", "--vacuum-time=7d"]
  | .BrowserCache => .clearAndRecreate [firefox_cache_path home, chrome_cache_path home]
  | .TempFiles => .runCommand "pkexec" ["rm", "-rf", "/tmp/*"]
  | .OldKernels => .runCommand "pkexec" ["apt-get", "autoremove", "--purge", "-y"]

/-- C10: no filesystem state makes the cleanup scan report an `OldKernels`
item — the scanner has no candidate path for that category — even though
`OldKernels` is a member of the closed category enumeration and the
category-to-action executor maps it to a (privileged) reclaim action, so it
can be cleaned but never appears in a scan result. -/
theorem c10_scan_never_reports_old_kernels (home : String) (fs : CleanerFs) :
    (scan_cleanable_items home fs).all
        (fun i => decide (i.category ≠ CleanupCategory.OldKernels)) = true ∧
      clean_category home CleanupCategory.OldKernels =
        CleanAction.runCommand "pkexec" ["apt-get", "autoremove", "--purge", "-y"] := by
  refine ⟨?_, rfl⟩
  rw [List.all_eq_true]
  intro item hmem
  rw [decide_eq_true_iff]
  intro heq
  have hcat := (c2_cleanup_scan_category_presence home fs).1 item hmem
  rw [heq] at hcat
  exact Bool.false_ne_true hcat

/-- Wrap-around modulus of the source's `u64` arithmetic. -/
def u64Mod : Nat := 2 ^ 64

/-- The fields of a successful `statvfs` call consulted by the enumerator. -/
structure StatvfsData where
  block_size : Nat
  blocks : Nat
  blocks_free : Nat
  blocks_available : Nat
deriving DecidableEq

/-- `MountPoint` (`disk_analyzer/src/lib.rs`, lines 9-17). -/
structure MountPoint where
  device : String
  mount_point : String
  fs_type : String
  total : Nat
  used : Nat
  available : Nat
deriving DecidableEq

/-- `MountPoint::used_percentage` (lines 21-27).  The source computes in
`f64`; the value is modelled by the exact rational it approximates. -/
def MountPoint.used_percentage (self : MountPoint) : ℚ :=
  if self.total = 0 then 0
  else ((self.used : ℚ) / (self.total : ℚ)) * 100

/-- Split a character list at every separator recognized by `p` (separators
are dropped; empty chunks are kept, to be filtered by the caller). -/
def splitOnPred (p : Char → Bool) : List Char → List (List Char)
  | [] => [[]]
  | c :: rest =>
      let r := splitOnPred p rest
      if p c then [] :: r
      else
        match r with
        | w :: ws => (c :: w) :: ws
        | [] => [[c]]

/-- `split_whitespace` of a mount-table line (whitespace runs separate the
fields; empty chunks are discarded). -/
def wordsOf (line : String) : List String :=
  ((splitOnPred Char.isWhitespace line.toList).map String.mk).filter
    (fun w => w != "")

/-- `str::lines`: split the mount-table contents at newlines.  (A trailing
empty chunk parses to no mount, so keeping it is immaterial.) -/
def linesOf (s : String) : List String :=
  (splitOnPred (fun c => c == '\n') s.toList).map String.mk

/-- Whether `pre` is an initial run of `s`, character by character. -/
def leadsWith (pre s : List Char) : Bool :=
  match pre, s with
  | [], _ => true
  | _ :: _, [] => false
  | a :: as, b :: bs => a == b && leadsWith as bs

/-- The virtual-filesystem exclusion test (lines 78-86). -/
def isVirtualFs (fs_type : String) : Bool :=
  leadsWith "fuse".toList fs_type.toList || fs_type == "tmpfs" ||
    fs_type == "devtmpfs" || fs_type == "proc" || fs_type == "sysfs" ||
    fs_type == "cgroup" || fs_type == "devpts"

/-- Processing of one `/proc/mounts` line (the loop body, lines 67-104):
lines with fewer than three fields are skipped, virtual filesystems are
skipped, a failing `statvfs` query drops the entry, and otherwise the capacity
fields are computed with `u64` (wrapping) arithmetic:
`total = blocks * block_size`, `available = blocks_available * block_size`,
`used = total - blocks_free * block_size`. -/
def parseMountLine (statvfsF : String → Option StatvfsData) (line : String) :
    Option MountPoint :=
  match wordsOf line with
  | device :: mount_point :: fs_type :: _ =>
      if isVirtualFs fs_type then none
      else
        match statvfsF mount_point with
        | some stat =>
            let block_size := stat.block_size
            let total := stat.blocks * block_size % u64Mod
            let available := stat.blocks_available * block_size % u64Mod
            let used := (total + u64Mod - stat.blocks_free * block_size % u64Mod) % u64Mod
            some { device := device, mount_point := mount_point, fs_type := fs_type,
                   total := total, used := used, available := available }
        | none => none
  | _ => none

/-- The mount list produced by `get_mount_points` (lines 62-108): the mount
table is either unreadable (`none`, yielding no mounts) or a string split into
lines, each processed by the loop body. -/
def mountList (contents : Option String)
    (statvfsF : String → Option StatvfsData) : List MountPoint :=
  match contents with
  | some s => (linesOf s).filterMap (parseMountLine statvfsF)
  | none => []

/-- `get_mount_points` always succeeds with the accumulated list. -/
def get_mount_points (contents : Option String)
    (statvfsF : String → Option StatvfsData) : Except Unit (List MountPoint) :=
  .ok (mountList contents statvfsF)

theorem mem_mountList {contents : Option String}
    {statvfsF : String → Option StatvfsData} {mp : MountPoint}
    (h : mp ∈ mountList contents statvfsF) :
    ∃ line, parseMountLine statvfsF line = some mp := by
  cases contents with
  | none => simp [mountList] at h
  | some s =>
      simp only [mountList, List.mem_filterMap] at h
      obtain ⟨line, _, hline⟩ := h
      exact ⟨line, hline⟩

theorem parseMountLine_some_inv {statvfsF : String → Option StatvfsData}
    {line : String} {mp : MountPoint}
    (h : parseMountLine statvfsF line = some mp) :
    ∃ st, statvfsF mp.mount_point = some st ∧
      mp.total = st.blocks * st.block_size % u64Mod ∧
      mp.available = st.blocks_available * st.block_size % u64Mod ∧
      mp.used = (mp.total + u64Mod - st.blocks_free * st.block_size % u64Mod) % u64Mod := by
  rw [parseMountLine] at h
  split at h
  · rename_i device mount_point fs_type rest _
    split at h
    · exact absurd h (by simp)
    · cases hst : statvfsF mount_point with
      | none => rw [hst] at h; exact absurd h (by simp)
      | some st =>
          rw [hst] at h
          simp only [Option.some.injEq] at h
          subst h
          exact ⟨st, hst, rfl, rfl, rfl⟩
  · exact absurd h (by simp)

/-- C3: for every mount entry the enumerator returns, the capacity fields are
computed from the block statistics of that entry's path as
`total = blocks * block_size`, `available = blocks_available * block_size`,
and `used = total - blocks_free * block_size` — used is derived from the free
block count, not the available block count, so `used + available` can fall
short of `total`.  (The unconditional equations carry the source's `u64`
wrapping; in the absence of overflow and with `blocks_free ≤ blocks` and
`blocks_available ≤ blocks_free` — which `statvfs` guarantees — they reduce to
the plain arithmetic forms, and `used + available ≤ total`.) -/
theorem c3_capacity_from_free_blocks (contents : Option String)
    (statvfsF : String → Option StatvfsData) (mp : MountPoint)
    (hmem : mp ∈ mountList contents statvfsF) :
    statvfsF mp.mount_point ≠ none ∧
      ∀ st, statvfsF mp.mount_point = some st →
        mp.total = st.blocks * st.block_size % u64Mod ∧
        mp.available = st.blocks_available * st.block_size % u64Mod ∧
        mp.used = (mp.total + u64Mod - st.blocks_free * st.block_size % u64Mod) % u64Mod ∧
        (st.blocks * st.block_size < u64Mod →
          st.blocks_free ≤ st.blocks →
          st.blocks_available ≤ st.blocks_free →
          mp.total = st.blocks * st.block_size ∧
          mp.available = st.blocks_available * st.block_size ∧
          mp.used + st.blocks_free * st.block_size = mp.total ∧
          mp.used = mp.total - st.blocks_free * st.block_size ∧
          mp.used + mp.available ≤ mp.total) := by
  obtain ⟨line, hline⟩ := mem_mountList hmem
  obtain ⟨st₀, hst₀, htot, havail, hused⟩ := parseMountLine_some_inv hline
  constructor
  · rw [hst₀]; exact Option.some_ne_none st₀
  · intro st hst
    rw [hst₀] at hst
    injection hst with hst
    subst hst
    refine ⟨htot, havail, hused, ?_⟩
    intro hnoflow hfree havail_le
    have hfree_mul : st₀.blocks_free * st₀.block_size ≤ st₀.blocks * st₀.block_size :=
      Nat.mul_le_mul_right _ hfree
    have havail_mul : st₀.blocks_available * st₀.block_size ≤ st₀.blocks_free * st₀.block_size :=
      Nat.mul_le_mul_right _ havail_le
    have htot' : mp.total = st₀.blocks * st₀.block_size := by
      rw [htot, Nat.mod_eq_of_lt hnoflow]
    have havail' : mp.available = st₀.blocks_available * st₀.block_size := by
      rw [havail, Nat.mod_eq_of_lt (by omega)]
    have hfree_lt : st₀.blocks_free * st₀.block_size < u64Mod := by omega
    have hused' : mp.used = mp.total - st₀.blocks_free * st₀.block_size := by
      rw [hused, htot', Nat.mod_eq_of_lt hfree_lt]
      have hM : 0 < u64Mod := by decide
      have : st₀.blocks * st₀.block_size + u64Mod - st₀.blocks_free * st₀.block_size =
          (st₀.blocks * st₀.block_size - st₀.blocks_free * st₀.block_size) + u64Mod := by
        omega
      rw [this, Nat.add_mod_right, Nat.mod_eq_of_lt (by omega)]
    refine ⟨htot', havail', by omega, hused', by omega⟩

/-- Witness for C3: a one-line mount table whose statvfs oracle reports 100
blocks of 1024 bytes, 10 free, 5 available — the enumerated entry satisfies
`used = total - blocks_free * block_size = 92160`, and its
`used + available = 97280` falls strictly short of `total = 102400`. -/
theorem c3_capacity_from_free_blocks_witness :
    (MountPoint.mk "dev" "/mnt" "ext4" 102400 92160 5120).used =
        (MountPoint.mk "dev" "/mnt" "ext4" 102400 92160 5120).total - 10 * 1024 ∧
      92160 + 5120 < 102400 := by
  refine ⟨?_, by decide⟩
  have h := c3_capacity_from_free_blocks (some "dev /mnt ext4")
      (fun p => if p = "/mnt" then some ⟨1024, 100, 10, 5⟩ else none)
      (MountPoint.mk "dev" "/mnt" "ext4" 102400 92160 5120) (by decide)
  have h2 := (h.2 ⟨1024, 100, 10, 5⟩ (by decide)).2.2.2 (by decide) (by decide) (by decide)
  exact h2.2.2.2.1

theorem mountList_used_le_total {contents : Option String}
    {statvfsF : String → Option StatvfsData} {mp : MountPoint}
    (hmem : mp ∈ mountList contents statvfsF) (st : StatvfsData)
    (hst : statvfsF mp.mount_point = some st)
    (hnoflow : st.blocks * st.block_size < u64Mod)
    (hfree : st.blocks_free ≤ st.blocks) :
    mp.used ≤ mp.total := by
  obtain ⟨line, hline⟩ := mem_mountList hmem
  obtain ⟨st₀, hst₀, htot, _, hused⟩ := parseMountLine_some_inv hline
  rw [hst₀] at hst
  injection hst with hst
  subst hst
  have hfree_mul : st₀.blocks_free * st₀.block_size ≤ st₀.blocks * st₀.block_size :=
    Nat.mul_le_mul_right _ hfree
  have htot' : mp.total = st₀.blocks * st₀.block_size := by
    rw [htot, Nat.mod_eq_of_lt hnoflow]
  have hfree_lt : st₀.blocks_free * st₀.block_size < u64Mod := by omega
  rw [hused, htot', Nat.mod_eq_of_lt hfree_lt]
  have heq : st₀.blocks * st₀.block_size + u64Mod - st₀.blocks_free * st₀.block_size =
      (st₀.blocks * st₀.block_size - st₀.blocks_free * st₀.block_size) + u64Mod := by
    omega
  have hsub_lt : st₀.blocks * st₀.block_size - st₀.blocks_free * st₀.block_size < u64Mod := by
    omega
  rw [heq, Nat.add_mod_right, Nat.mod_eq_of_lt hsub_lt]
  omega

/-- C4: for every enumerated mount entry, `used_percentage` is `used / total *
100` and lies in `[0, 100]` whenever `total > 0` (granted the statvfs
guarantees that rule out `u64` wrap-around), and is exactly `0` when `total`
is `0`. -/
theorem c4_used_percentage_bounds (contents : Option String)
    (statvfsF : String → Option StatvfsData) (mp : MountPoint)
    (hmem : mp ∈ mountList contents statvfsF) :
    (mp.total = 0 → mp.used_percentage = 0) ∧
      (0 < mp.total →
        mp.used_percentage = (mp.used : ℚ) / (mp.total : ℚ) * 100) ∧
      (∀ st, statvfsF mp.mount_point = some st →
        st.blocks * st.block_size < u64Mod → st.blocks_free ≤ st.blocks →
        0 < mp.total →
        0 ≤ mp.used_percentage ∧ mp.used_percentage ≤ 100) := by
  refine ⟨?_, ?_, ?_⟩
  · intro h0
    rw [MountPoint.used_percentage, if_pos h0]
  · intro hpos
    rw [MountPoint.used_percentage, if_neg (Nat.pos_iff_ne_zero.mp hpos)]
  · intro st hst hnoflow hfree hpos
    have hle : mp.used ≤ mp.total := mountList_used_le_total hmem st hst hnoflow hfree
    rw [MountPoint.used_percentage, if_neg (Nat.pos_iff_ne_zero.mp hpos)]
    have hq : (0 : ℚ) < (mp.total : ℚ) := by exact_mod_cast hpos
    have hcast : (mp.used : ℚ) ≤ (mp.total : ℚ) := by exact_mod_cast hle
    have hdiv0 : (0 : ℚ) ≤ (mp.used : ℚ) / (mp.total : ℚ) :=
      div_nonneg (by positivity) (le_of_lt hq)
    have hdiv1 : (mp.used : ℚ) / (mp.total : ℚ) ≤ 1 := (div_le_one hq).mpr hcast
    constructor
    · positivity
    · nlinarith [hdiv0, hdiv1]

/-- Witness for C4 at the concrete one-line mount table: the enumerated
entry's used percentage (90) lies within `[0, 100]`. -/
theorem c4_used_percentage_bounds_witness :
    0 ≤ (MountPoint.mk "dev" "/mnt" "ext4" 102400 92160 5120).used_percentage ∧
      (MountPoint.mk "dev" "/mnt" "ext4" 102400 92160 5120).used_percentage ≤ 100 := by
  exact (c4_used_percentage_bounds (some "dev /mnt ext4")
      (fun p => if p = "/mnt" then some ⟨1024, 100, 10, 5⟩ else none)
      (MountPoint.mk "dev" "/mnt" "ext4" 102400 92160 5120) (by decide)).2.2
      ⟨1024, 100, 10, 5⟩ (by decide) (by decide) (by decide) (by decide)

/-- C8: mount enumeration never surfaces an error — an unreadable mount table
yields a successful empty sequence, the call always returns `Ok`, and a line
whose capacity query fails contributes nothing while every other line is still
processed. -/
theorem c8_mount_enumeration_never_errors :
    (∀ statvfsF, get_mount_points none statvfsF = .ok []) ∧
      (∀ contents statvfsF,
        get_mount_points contents statvfsF = .ok (mountList contents statvfsF)) ∧
      (∀ (statvfsF : String → Option StatvfsData) pre line post,
        parseMountLine statvfsF line = none →
        (pre ++ line :: post).filterMap (parseMountLine statvfsF) =
          pre.filterMap (parseMountLine statvfsF) ++
            post.filterMap (parseMountLine statvfsF)) ∧
      (∀ (statvfsF : String → Option StatvfsData) line device mount_point fs_type rest,
        wordsOf line = device :: mount_point :: fs_type :: rest →
        isVirtualFs fs_type = false → statvfsF mount_point = none →
        parseMountLine statvfsF line = none) := by
  refine ⟨fun _ => rfl, fun _ _ => rfl, ?_, ?_⟩
  · intro statvfsF pre line post h
    simp [List.filterMap_append, List.filterMap_cons, h]
  · intro statvfsF line device mount_point fs_type rest hw hv hst
    rw [parseMountLine, hw]
    simp [hv, hst]

/-- Witness for C8: a well-formed non-virtual mount line whose statvfs query
fails parses to no entry. -/
theorem c8_mount_enumeration_never_errors_witness :
    parseMountLine (fun _ => none) "dev /mnt ext4" = none :=
  c8_mount_enumeration_never_errors.2.2.2 (fun _ => none) "dev /mnt ext4"
    "dev" "/mnt" "ext4" [] (by decide) (by decide) rfl

/-- Two-digit zero-padded decimal fraction. -/
def padTwo (n : Nat) : String :=
  if n < 10 then "0" ++ toString n else toString n

/-- Rust's `format!("{:.2}", num as f64 / den as f64)` for non-negative
inputs, with the `f64` quotient idealized as the exact rational `num / den`:
the value is scaled by 100 and rounded half-up to the integer
`⌊num * 100 / den + 1 / 2⌋ = (num * 200 + den) / (2 * den)`, then printed as
`intpart.fracpart`. -/
def formatTwoDecNat (num den : Nat) : String :=
  let n := (num * 200 + den) / (2 * den)
  toString (n / 100) ++ "." ++ padTwo (n % 100)

/-- `MountPoint::format_size` (`disk_analyzer/src/lib.rs`, lines 30-41):
two-decimal GB above 1 GiB, two-decimal MB above 1 MiB, integer KB below. -/
def MountPoint.format_size (bytes : Nat) : String :=
  let GB : Nat := 1024 * 1024 * 1024
  let MB : Nat := 1024 * 1024
  if bytes ≥ GB then formatTwoDecNat bytes GB ++ " GB"
  else if bytes ≥ MB then formatTwoDecNat bytes MB ++ " MB"
  else toString (bytes / 1024) ++ " KB"

/-- `format_size` (`system_cleaner/src/lib.rs`, lines 283-297): two-decimal
GB/MB/KB buckets and a plain `"{} bytes"` form below 1 KiB. -/
def format_size (bytes : Nat) : String :=
  let GB : Nat := 1024 * 1024 * 1024
  let MB : Nat := 1024 * 1024
  let KB : Nat := 1024
  if bytes ≥ GB then formatTwoDecNat bytes GB ++ " GB"
  else if bytes ≥ MB then formatTwoDecNat bytes MB ++ " MB"
  else if bytes ≥ KB then formatTwoDecNat bytes KB ++ " KB"
  else toString bytes ++ " bytes"

/-- C7 counterexample: the cleanup-scanner formatter renders 500 as
`"500 bytes"`, not `"500 B"` as the claim states, and below 1 KiB it does not
use a two-decimal KB form. -/
theorem c7_formatter_counterexample :
    format_size 500 = "500 bytes" ∧ format_size 500 ≠ "500 B" := by
  exact ⟨by decide, by decide⟩

/-- C7 (amended): both formatters use 1024-based units with two-decimal GB
above 1 GiB and two-decimal MB above 1 MiB; below 1 MiB the mount/folder
variant prints integer KB, while the cleanup-scanner variant prints
two-decimal KB only from 1 KiB up and prints `"{n} bytes"` below 1 KiB; in
particular 500 → `"0 KB"` (mount/folder) / `"500 bytes"` (cleanup),
2097152 → `"2.00 MB"`, 3221225472 → `"3.00 GB"`. -/
theorem c7_formatter_amended :
    (∀ b, 1024 * 1024 * 1024 ≤ b →
        MountPoint.format_size b = formatTwoDecNat b (1024 * 1024 * 1024) ++ " GB" ∧
        format_size b = formatTwoDecNat b (1024 * 1024 * 1024) ++ " GB") ∧
    (∀ b, 1024 * 1024 ≤ b → b < 1024 * 1024 * 1024 →
        MountPoint.format_size b = formatTwoDecNat b (1024 * 1024) ++ " MB" ∧
        format_size b = formatTwoDecNat b (1024 * 1024) ++ " MB") ∧
    (∀ b, b < 1024 * 1024 →
        MountPoint.format_size b = toString (b / 1024) ++ " KB") ∧
    (∀ b, 1024 ≤ b → b < 1024 * 1024 →
        format_size b = formatTwoDecNat b 1024 ++ " KB") ∧
    (∀ b, b < 1024 → format_size b = toString b ++ " bytes") ∧
    MountPoint.format_size 500 = "0 KB" ∧ format_size 500 = "500 bytes" ∧
    MountPoint.format_size 2097152 = "2.00 MB" ∧ format_size 2097152 = "2.00 MB" ∧
    MountPoint.format_size 3221225472 = "3.00 GB" ∧
    format_size 3221225472 = "3.00 GB" := by
  refine ⟨?_, ?_, ?_, ?_, ?_, by decide, by decide, by decide, by decide, by decide, by decide⟩
  · intro b hb
    constructor
    · rw [MountPoint.format_size]
      simp only [ge_iff_le, if_pos hb]
    · rw [format_size]
      simp only [ge_iff_le, if_pos hb]
  · intro b hb hb'
    have hnot : ¬ (1024 * 1024 * 1024 : Nat) ≤ b := by omega
    constructor
    · rw [MountPoint.format_size]
      simp only [ge_iff_le, if_neg hnot, if_pos hb]
    · rw [format_size]
      simp only [ge_iff_le, if_neg hnot, if_pos hb]
  · intro b hb
    have hnotG : ¬ (1024 * 1024 * 1024 : Nat) ≤ b := by omega
    have hnotM : ¬ (1024 * 1024 : Nat) ≤ b := by omega
    rw [MountPoint.format_size]
    simp only [ge_iff_le, if_neg hnotG, if_neg hnotM]
  · intro b hb hb'
    have hnotG : ¬ (1024 * 1024 * 1024 : Nat) ≤ b := by omega
    have hnotM : ¬ (1024 * 1024 : Nat) ≤ b := by omega
    rw [format_size]
    simp only [ge_iff_le, if_neg hnotG, if_neg hnotM, if_pos hb]
  · intro b hb
    have hnotG : ¬ (1024 * 1024 * 1024 : Nat) ≤ b := by omega
    have hnotM : ¬ (1024 * 1024 : Nat) ≤ b := by omega
    have hnotK : ¬ (1024 : Nat) ≤ b := by omega
    rw [format_size]
    simp only [ge_iff_le, if_neg hnotG, if_neg hnotM, if_neg hnotK]

/-- Witness for C7 (amended) at 1536 bytes: the cleanup variant prints the
two-decimal KB form `"1.50 KB"`. -/
theorem c7_formatter_amended_witness :
    format_size 1536 = formatTwoDecNat 1536 1024 ++ " KB" ∧
      formatTwoDecNat 1536 1024 ++ " KB" = "1.50 KB" := by
  exact ⟨c7_formatter_amended.2.2.2.1 1536 (by decide) (by decide), by decide⟩

/-- An `f32` value as the collector can observe it: an exact finite rational
(the idealization of a finite float), a signed infinity, or NaN. -/
inductive F32 where
  | finite (q : ℚ) : F32
  | inf (neg : Bool) : F32
  | nan : F32
deriving DecidableEq

def F32.isFinite : F32 → Bool
  | .finite _ => true
  | _ => false

/-- Largest finite `f32` magnitude. -/
def f32MaxMag : ℚ := (2 - (1 : ℚ) / 2 ^ 23) * 2 ^ 127

/-- `v as f32` for an integer `v`, idealized as exact: any integer of
magnitude beyond the largest finite `f32` overflows to infinity (an `i32`
never does). -/
def F32.ofInt (v : Int) : F32 :=
  if (v : ℚ) < -f32MaxMag then .inf true
  else if f32MaxMag < (v : ℚ) then .inf false
  else .finite (v : ℚ)

/-- `x / 1000.0`, idealized as exact (the quotient of a finite float by 1000
stays finite). -/
def F32.div1000 : F32 → F32
  | .finite q => .finite (q / 1000)
  | .inf b => .inf b
  | .nan => .nan

def qCompare (a b : ℚ) : Ordering :=
  if a < b then .lt else if b < a then .gt else .eq

/-- IEEE `partial_cmp`: `none` exactly when either operand is NaN. -/
def F32.partialCmp : F32 → F32 → Option Ordering
  | .nan, _ => none
  | _, .nan => none
  | .finite a, .finite b => some (qCompare a b)
  | .finite _, .inf b => some (if b then .gt else .lt)
  | .inf a, .finite _ => some (if a then .lt else .gt)
  | .inf a, .inf b =>
      some (if a == b then .eq else if a then .lt else .gt)

/-- IEEE `<` (false on NaN operands). -/
def F32.lt : F32 → F32 → Bool
  | .nan, _ => false
  | _, .nan => false
  | .finite a, .finite b => decide (a < b)
  | .finite _, .inf b => !b
  | .inf a, .finite _ => a
  | .inf a, .inf b => a && !b

/-- IEEE `<=` (false on NaN operands). -/
def F32.le : F32 → F32 → Bool
  | .nan, _ => false
  | _, .nan => false
  | .finite a, .finite b => decide (a ≤ b)
  | .finite _, .inf b => !b
  | .inf a, .finite _ => a
  | .inf a, .inf b => (a == b) || (a && !b)

/-- IEEE subtraction (idealized: a finite difference stays finite). -/
def F32.sub : F32 → F32 → F32
  | .nan, _ => .nan
  | _, .nan => .nan
  | .finite a, .finite b => .finite (a - b)
  | .finite _, .inf b => .inf (!b)
  | .inf a, .finite _ => .inf a
  | .inf a, .inf b => if a == b then .nan else .inf a

def F32.abs : F32 → F32
  | .finite q => .finite |q|
  | .inf _ => .inf false
  | .nan => .nan

/-- Whitespace trimming on both ends, as `str::trim`. -/
def trimCharList (cs : List Char) : List Char :=
  ((cs.dropWhile Char.isWhitespace).reverse.dropWhile Char.isWhitespace).reverse

def strTrim (s : String) : String :=
  String.mk (trimCharList s.toList)

def digitsToNat (ds : List Char) : Nat :=
  ds.foldl (fun acc c => acc * 10 + (c.toNat - 48)) 0

/-- `s.trim().parse::<i32>()`: trim, optional sign, decimal digits, and the
`i32` range check — values outside `[-2^31, 2^31)` fail to parse. -/
def parseI32 (s : String) : Option Int :=
  let cs := trimCharList s.toList
  let signAndDigits : Int × List Char :=
    match cs with
    | '-' :: rest => (-1, rest)
    | '+' :: rest => (1, rest)
    | l => (1, l)
  let digits := signAndDigits.2
  if digits.isEmpty then none
  else if digits.all (fun c => c.isDigit) then
    let v : Int := signAndDigits.1 * (digitsToNat digits : Int)
    if -(2 ^ 31) ≤ v ∧ v < 2 ^ 31 then some v else none
  else none

/-- `TemperatureSensor` (`core/src/system_info.rs`, lines 5-10), with the
`f32` temperature modelled by `F32`. -/
structure TemperatureSensor where
  name : String
  temperature : F32
  label : String
deriving DecidableEq

/-- One `/sys/class/thermal` directory entry as the collector reads it:
entry name, whether it is a directory, and the contents of its `temp` and
`type` files (`none` for absent or unreadable). -/
structure ThermalZone where
  file_name : String
  is_dir : Bool
  temp : Option String
  type_file : Option String

/-- One `/sys/class/hwmon` chip directory: entry name, directory flag, the
contents of `temp{i}_input` and `temp{i}_label` per index (with `none`
covering both a missing file and a failed read, which the source treats
alike), and the chip `name` file. -/
structure HwmonChip where
  file_name : String
  is_dir : Bool
  temp_input : Nat → Option String
  temp_label : Nat → Option String
  name_file : Option String

/-- The thermal-zone loop body (`system_info.rs`, lines 105-126). -/
def zoneSensor (entry : ThermalZone) : List TemperatureSensor :=
  if entry.is_dir && leadsWith "thermal_zone".toList entry.file_name.toList then
    match entry.temp with
    | some temp_str =>
        match parseI32 temp_str with
        | some m =>
            [{ name := entry.file_name,
               temperature := F32.div1000 (F32.ofInt m),
               label :=
                 match entry.type_file with
                 | some t => strTrim t
                 | none => strTrim entry.file_name }]
        | none => []
    | none => []
  else []

def zoneSensors : List ThermalZone → List TemperatureSensor
  | [] => []
  | z :: rest => zoneSensor z ++ zoneSensors rest

/-- One probe of `temp{i}_input` inside a hwmon chip (lines 135-166). -/
def hwmonProbe (chip : HwmonChip) (i : Nat) : List TemperatureSensor :=
  match chip.temp_input i with
  | some temp_str =>
      match parseI32 temp_str with
      | some m =>
          let label :=
            match chip.temp_label i with
            | some s => strTrim s
            | none => "Sensor " ++ toString i
          let name :=
            match chip.name_file with
            | some s => strTrim s
            | none => strTrim chip.file_name
          [{ name := name ++ " - " ++ label,
             temperature := F32.div1000 (F32.ofInt m),
             label := label }]
      | none => []
  | none => []

def hwmonProbeAll (chip : HwmonChip) : List Nat → List TemperatureSensor
  | [] => []
  | i :: rest => hwmonProbe chip i ++ hwmonProbeAll chip rest

/-- The hwmon loop body: a directory entry is probed at indices 1 through 19
(`for i in 1..20`). -/
def hwmonChipSensors (chip : HwmonChip) : List TemperatureSensor :=
  if chip.is_dir then hwmonProbeAll chip (List.range' 1 19) else []

def hwmonSensors : List HwmonChip → List TemperatureSensor
  | [] => []
  | c :: rest => hwmonChipSensors c ++ hwmonSensors rest

/-- The adjacent-duplicate test of `sensors.dedup_by` (line 174): temperature
difference strictly below 0.1 °C (here the exact rational 1/10) and exactly
equal labels; `a` is the later element, `b` the retained earlier one. -/
def dedupRel (a b : TemperatureSensor) : Bool :=
  F32.lt (F32.abs (F32.sub a.temperature b.temperature)) (.finite (1 / 10)) &&
    a.label == b.label

def dedupByGo {α : Type} (r : α → α → Bool) (last : α) : List α → List α
  | [] => []
  | y :: ys => if r y last then dedupByGo r last ys else y :: dedupByGo r y ys

/-- `Vec::dedup_by`: keep the first element of every run, removing each later
element that matches the most recently retained one. -/
def dedupBy {α : Type} (r : α → α → Bool) : List α → List α
  | [] => []
  | x :: xs => x :: dedupByGo r x xs

def insertDesc (s : TemperatureSensor) :
    List TemperatureSensor → List TemperatureSensor
  | [] => [s]
  | y :: ys =>
      if F32.le y.temperature s.temperature then s :: y :: ys
      else y :: insertDesc s ys

/-- Sort hottest-first (the comparator `b.partial_cmp(&a)` of line 173,
realized as an insertion sort on the total order of non-NaN values). -/
def sortDesc (l : List TemperatureSensor) : List TemperatureSensor :=
  l.foldr insertDesc []

/-- `SystemInfo::get_temperatures` (lines 100-177) over explicit
pseudo-filesystem contents.  The sort comparator unwraps `partial_cmp`; a
`none` comparison between two collected temperatures would panic, which is
modelled as the `none` result. -/
def get_temperatures (zones : List ThermalZone) (chips : List HwmonChip) :
    Option (List TemperatureSensor) :=
  let sensors := zoneSensors zones ++ hwmonSensors chips
  if sensors.all (fun a =>
      sensors.all (fun b => (F32.partialCmp b.temperature a.temperature).isSome))
  then some (dedupBy dedupRel (sortDesc sensors))
  else none

theorem dedupByGo_chain {α : Type} (r : α → α → Bool) (xs : List α) :
    ∀ last, List.Chain' (fun a b => r b a = false) (last :: dedupByGo r last xs) := by
  induction xs with
  | nil => intro last; simp [dedupByGo]
  | cons y ys ih =>
      intro last
      by_cases h : r y last = true
      · rw [dedupByGo, if_pos h]
        exact ih last
      · rw [dedupByGo, if_neg h]
        rw [List.chain'_cons]
        refine ⟨?_, ih y⟩
        simpa using h

theorem dedupBy_chain {α : Type} (r : α → α → Bool) (l : List α) :
    List.Chain' (fun a b => r b a = false) (dedupBy r l) := by
  cases l with
  | nil => simp [dedupBy]
  | cons x xs => exact dedupByGo_chain r xs x

theorem dedupByGo_of_chain {α : Type} (r : α → α → Bool) (xs : List α) :
    ∀ last, List.Chain' (fun a b => r b a = false) (last :: xs) →
      dedupByGo r last xs = xs := by
  induction xs with
  | nil => intro last _; rfl
  | cons y ys ih =>
      intro last h
      rw [List.chain'_cons] at h
      rw [dedupByGo, if_neg (by simp [h.1])]
      rw [ih y h.2]

theorem dedupBy_of_chain {α : Type} (r : α → α → Bool) (l : List α)
    (h : List.Chain' (fun a b => r b a = false) l) : dedupBy r l = l := by
  cases l with
  | nil => rfl
  | cons x xs =>
      rw [dedupBy, dedupByGo_of_chain r xs x h]

/-- C6: the sensor deduplication (removal of each element matching — within
0.1 °C and with equal label — the most recently retained one, applied after
the descending sort) is idempotent: on any sorted sequence, deduplicating a
second time leaves the once-deduplicated sequence unchanged. -/
theorem c6_dedup_idempotent (l : List TemperatureSensor)
    (_hsorted : List.Chain'
      (fun a b => F32.le b.temperature a.temperature = true) l) :
    dedupBy dedupRel (dedupBy dedupRel l) = dedupBy dedupRel l :=
  dedupBy_of_chain dedupRel _ (dedupBy_chain dedupRel l)

/-- Witness for C6 on a concrete descending two-sensor list. -/
theorem c6_dedup_idempotent_witness :
    dedupBy dedupRel (dedupBy dedupRel
        [⟨"cpu0", .finite 50, "cpu"⟩, ⟨"gpu0", .finite 30, "gpu"⟩]) =
      dedupBy dedupRel
        [⟨"cpu0", .finite 50, "cpu"⟩, ⟨"gpu0", .finite 30, "gpu"⟩] := by
  apply c6_dedup_idempotent
  rw [List.chain'_cons]
  refine ⟨?_, List.chain'_singleton _⟩
  show F32.le (.finite 30) (.finite 50) = true
  simp only [F32.le, decide_eq_true_eq]
  norm_num

theorem parseI32_range {s : String} {v : Int} (h : parseI32 s = some v) :
    -(2 ^ 31) ≤ v ∧ v < 2 ^ 31 := by
  simp only [parseI32] at h
  split at h
  · exact absurd h (by simp)
  · split at h
    · split at h
      · rename_i hrange
        injection h with h
        subst h
        exact hrange
      · exact absurd h (by simp)
    · exact absurd h (by simp)

theorem div1000_ofInt_finite {m : Int} (h1 : -(2 ^ 31) ≤ m) (h2 : m < 2 ^ 31) :
    (F32.div1000 (F32.ofInt m)).isFinite = true := by
  have hb : ((2 : ℚ) ^ 31) ≤ f32MaxMag := by
    rw [f32MaxMag]; norm_num
  have hm1 : -f32MaxMag ≤ (m : ℚ) := by
    have : (-(2 ^ 31) : ℚ) ≤ (m : ℚ) := by exact_mod_cast h1
    linarith
  have hm2 : (m : ℚ) ≤ f32MaxMag := by
    have : (m : ℚ) < ((2 : ℚ) ^ 31) := by exact_mod_cast h2
    linarith
  rw [F32.ofInt, if_neg (not_lt.mpr hm1), if_neg (not_lt.mpr hm2)]
  rfl

theorem zoneSensor_finite (z : ThermalZone) :
    ∀ s ∈ zoneSensor z, s.temperature.isFinite = true := by
  intro s hs
  rw [zoneSensor] at hs
  split at hs
  · split at hs
    · split at hs
      · rename_i hm
        rw [List.mem_singleton] at hs
        subst hs
        obtain ⟨h1, h2⟩ := parseI32_range hm
        exact div1000_ofInt_finite h1 h2
      · exact absurd hs (by simp)
    · exact absurd hs (by simp)
  · exact absurd hs (by simp)

theorem zoneSensors_finite (zones : List ThermalZone) :
    ∀ s ∈ zoneSensors zones, s.temperature.isFinite = true := by
  induction zones with
  | nil => intro s hs; exact absurd hs (by simp [zoneSensors])
  | cons z rest ih =>
      intro s hs
      rw [zoneSensors] at hs
      rcases List.mem_append.mp hs with h | h
      · exact zoneSensor_finite z s h
      · exact ih s h

theorem hwmonProbe_finite (chip : HwmonChip) (i : Nat) :
    ∀ s ∈ hwmonProbe chip i, s.temperature.isFinite = true := by
  intro s hs
  rw [hwmonProbe] at hs
  split at hs
  · split at hs
    · rename_i hm
      rw [List.mem_singleton] at hs
      subst hs
      obtain ⟨h1, h2⟩ := parseI32_range hm
      exact div1000_ofInt_finite h1 h2
    · exact absurd hs (by simp)
  · exact absurd hs (by simp)

theorem hwmonProbeAll_finite (chip : HwmonChip) (idx : List Nat) :
    ∀ s ∈ hwmonProbeAll chip idx, s.temperature.isFinite = true := by
  induction idx with
  | nil => intro s hs; exact absurd hs (by simp [hwmonProbeAll])
  | cons i rest ih =>
      intro s hs
      rw [hwmonProbeAll] at hs
      rcases List.mem_append.mp hs with h | h
      · exact hwmonProbe_finite chip i s h
      · exact ih s h

theorem hwmonSensors_finite (chips : List HwmonChip) :
    ∀ s ∈ hwmonSensors chips, s.temperature.isFinite = true := by
  induction chips with
  | nil => intro s hs; exact absurd hs (by simp [hwmonSensors])
  | cons c rest ih =>
      intro s hs
      rw [hwmonSensors] at hs
      rcases List.mem_append.mp hs with h | h
      · rw [hwmonChipSensors] at h
        split at h
        · exact hwmonProbeAll_finite c _ s h
        · exact absurd h (by simp)
      · exact ih s h

theorem partialCmp_isSome_of_finite {a b : F32} (ha : a.isFinite = true)
    (hb : b.isFinite = true) : (F32.partialCmp a b).isSome = true := by
  cases a with
  | finite qa =>
      cases b with
      | finite qb => rfl
      | inf n => simp [F32.isFinite] at hb
      | nan => simp [F32.isFinite] at hb
  | inf n => simp [F32.isFinite] at ha
  | nan => simp [F32.isFinite] at ha

/-- C9: for every contents of the thermal-zone and hardware-monitor
pseudo-filesystems, every millidegree value that survives integer parsing
yields a finite (non-NaN) Celsius temperature, so the descending sort's
unwrapped partial comparison always succeeds and `get_temperatures` returns
normally rather than panicking. -/
theorem c9_temperature_collection_never_panics
    (zones : List ThermalZone) (chips : List HwmonChip) :
    ((zoneSensors zones ++ hwmonSensors chips).all
        (fun s => s.temperature.isFinite)) = true ∧
      (get_temperatures zones chips).isSome = true := by
  have hfin : ∀ s ∈ zoneSensors zones ++ hwmonSensors chips,
      s.temperature.isFinite = true := by
    intro s hs
    rcases List.mem_append.mp hs with h | h
    · exact zoneSensors_finite zones s h
    · exact hwmonSensors_finite chips s h
  have hcond : (zoneSensors zones ++ hwmonSensors chips).all (fun a =>
      (zoneSensors zones ++ hwmonSensors chips).all
        (fun b => (F32.partialCmp b.temperature a.temperature).isSome)) = true := by
    rw [List.all_eq_true]
    intro a ha
    rw [List.all_eq_true]
    intro b hb
    exact partialCmp_isSome_of_finite (hfin b hb) (hfin a ha)
  constructor
  · rw [List.all_eq_true]
    intro s hs
    exact hfin s hs
  · simp only [get_temperatures]
    rw [if_pos hcond]
    rfl
